import Mathlib

/-!
Verification of the rule evaluation engine of `app/rules_engine_mcp.py`
(mcp-rules-engine). The Python source is shallowly embedded below: Pydantic
models become structures, the global `config` dict-of-models becomes an
explicit association-list configuration threaded through the operations, and
the regex library is modelled on the fragment of patterns the claims exercise
(literal patterns, optionally with one literal capturing group, plus
non-compiling pattern sources). Python's `datetime.strptime(s, "%m/%d/%Y")`
and `strftime` are modelled directly.
-/

namespace RulesEngineMCP

/-! ## Model of the regex library on literal patterns

A `Pat` models a rule's `condition` string together with the behaviour of
`re.compile` / `re.search` / `re.findall` / `re.sub` on it:
- `lit s` is a literal pattern with no capturing group;
- `grp pre g post` is a literal pattern `pre(g)post` with one capturing
  group whose text is always `g`;
- `bad src` is a condition string that does not compile (`re.error`).
Matching of a literal pattern is non-overlapping leftmost substring search,
exactly how the `re` scanner behaves on literals. -/
inductive Pat where
  | lit (s : String)
  | grp (pre g post : String)
  | bad (src : String)
deriving DecidableEq

/-- The full text matched by a literal pattern (group markers match no text). -/
def Pat.whole : Pat → String
  | .lit s => s
  | .grp pre g post => pre ++ g ++ post
  | .bad _ => ""

/-- Whether `re.compile` succeeds on the condition. -/
def compileOk : Pat → Bool
  | .bad _ => false
  | _ => true

/-- Model of `str(e)` for the `re.error` raised on a non-compiling condition. -/
def compileErr (src : String) : String := "invalid pattern: " ++ src

/-- `re.search`: does the literal occur anywhere in the text? -/
def searchChars (p : List Char) : List Char → Bool
  | [] => p.isEmpty
  | c :: cs => (decide (p ≠ []) && p.isPrefixOf (c :: cs)) || searchChars p cs

/-- Number of non-overlapping leftmost occurrences of literal `p`, fuelled
structurally so that it evaluates by kernel reduction. After a match the
scanner resumes at the end of the matched text, as the `re` scanner does. -/
def countCharsF (p : List Char) : Nat → List Char → Nat
  | _, [] => 0
  | 0, _ => 0
  | fuel + 1, c :: cs =>
    if p ≠ [] ∧ p.isPrefixOf (c :: cs) then
      countCharsF p fuel (List.drop (p.length - 1) cs) + 1
    else countCharsF p fuel cs

/-- `re.sub` with a constant replacement on a literal pattern: replace each
non-overlapping leftmost occurrence of `p` by `r`. -/
def subCharsF (p r : List Char) : Nat → List Char → List Char
  | _, [] => []
  | 0, l => l
  | fuel + 1, c :: cs =>
    if p ≠ [] ∧ p.isPrefixOf (c :: cs) then
      r ++ subCharsF p r fuel (List.drop (p.length - 1) cs)
    else c :: subCharsF p r fuel cs

def countStr (p t : String) : Nat := countCharsF p.data t.data.length t.data

def searchStr (p t : String) : Bool := searchChars p.data t.data

def subStr (p r t : String) : String :=
  String.mk (subCharsF p.data r.data t.data.length t.data)

/-- `re.search(condition, t)` inside `process_text` (the non-compiling case is
routed to the exception handler by the caller, never here). -/
def patSearch (p : Pat) (t : String) : Bool :=
  match p with
  | .bad _ => false
  | _ => searchStr p.whole t

/-- `re.findall(condition, t)`: for a pattern without groups the list of full
matches; with a capturing group, the group's text per match (the Python code
additionally takes `match[0]` when findall returns tuples, which likewise
yields the first group's text). -/
def patFindall (p : Pat) (t : String) : List String :=
  match p with
  | .lit s => List.replicate (countStr s t) s
  | .grp pre g post => List.replicate (countStr (pre ++ g ++ post) t) g
  | .bad _ => []

/-- `pattern.sub(replacement, t)` with a constant replacement string. -/
def patSub (p : Pat) (r t : String) : String :=
  match p with
  | .bad _ => t
  | _ => subStr p.whole r t

/-! ## Model of `datetime.strptime(s, "%m/%d/%Y")` and `strftime` -/

structure SimpleDate where
  month : Nat
  day : Nat
  year : Nat
deriving DecidableEq

def isLeap (y : Nat) : Bool := y % 4 == 0 && (y % 100 != 0 || y % 400 == 0)

def daysInMonth (m y : Nat) : Nat :=
  if m == 2 then (if isLeap y then 29 else 28)
  else if m == 4 || m == 6 || m == 9 || m == 11 then 30
  else 31

def digitsVal (s : List Char) : Nat :=
  s.foldl (fun acc c => acc * 10 + (c.toNat - 48)) 0

def allDigits (s : List Char) : Bool := s.all (fun c => c.isDigit)

/-- `s.split('/')` on the underlying character list. -/
def splitOnSlash : List Char → List (List Char)
  | [] => [[]]
  | '/' :: rest => [] :: splitOnSlash rest
  | c :: rest =>
    match splitOnSlash rest with
    | g :: gs => (c :: g) :: gs
    | [] => [[c]]

/-- `datetime.strptime(s, "%m/%d/%Y")`: month and day take 1-2 digits, the
year exactly 4; the whole string must be consumed; the day is validated
against the month's length (with leap years), else `ValueError`. -/
def parseDate (s : String) : Option SimpleDate :=
  match splitOnSlash s.data with
  | [mc, dc, yc] =>
    if allDigits mc ∧ (mc.length = 1 ∨ mc.length = 2) ∧
       allDigits dc ∧ (dc.length = 1 ∨ dc.length = 2) ∧
       allDigits yc ∧ yc.length = 4 then
      let m := digitsVal mc
      let d := digitsVal dc
      let y := digitsVal yc
      if 1 ≤ m ∧ m ≤ 12 ∧ 1 ≤ d ∧ d ≤ daysInMonth m y then
        some ⟨m, d, y⟩
      else none
    else none
  | _ => none

def padNum (w n : Nat) : String :=
  let s := toString n
  String.mk (List.replicate (w - s.length) '0') ++ s

/-- `date.strftime(fmt)` for the directives the engine's formats use. -/
def formatDateChars (d : SimpleDate) : List Char → List Char
  | [] => []
  | '%' :: 'Y' :: rest => (padNum 4 d.year).data ++ formatDateChars d rest
  | '%' :: 'm' :: rest => (padNum 2 d.month).data ++ formatDateChars d rest
  | '%' :: 'd' :: rest => (padNum 2 d.day).data ++ formatDateChars d rest
  | '%' :: '%' :: rest => '%' :: formatDateChars d rest
  | c :: rest => c :: formatDateChars d rest

def formatDate (fmt : String) (d : SimpleDate) : String :=
  String.mk (formatDateChars d fmt.data)

/-! ## Data model (`Rule`, `RuleSet`, `RuleEngineConfig`)

The Pydantic `parameters: Dict[str, Any]` bag is modelled by the keys the
engine reads (`reason`, `severity`, `flag_reason`, `transform_type`,
`format`); `parameters.get(k, default)` becomes `Option.getD`. The Python
dicts `config.rules` / `config.rule_sets` (insertion ordered, unique keys)
are modelled as association lists with dict-style insert/delete. -/

structure Params where
  reason : Option String := none
  severity : Option String := none
  flag_reason : Option String := none
  transform_type : Option String := none
  format : Option String := none
deriving DecidableEq

structure Rule where
  id : String
  name : String
  description : String := ""
  condition : Pat
  action : String := "redact"
  replacement : String := "<REDACTED>"
  parameters : Params := {}
  enabled : Bool := true
  priority : Int := 0
  created_at : String := ""
  updated_at : String := ""
deriving DecidableEq

structure RuleSet where
  id : String
  name : String
  description : String := ""
  rules : List String := []
  enabled : Bool := true
  created_at : String := ""
  updated_at : String := ""
deriving DecidableEq

/-- `d.get(key)` on a Python dict modelled as an association list. -/
def alookup {α : Type} : List (String × α) → String → Option α
  | [], _ => none
  | (k, v) :: rest, key => if k = key then some v else alookup rest key

/-- `d[key] = v`: replace the value at an existing key in place, else append
(Python dicts keep the key's original position on overwrite). -/
def ainsert {α : Type} : List (String × α) → String → α → List (String × α)
  | [], key, v => [(key, v)]
  | (k, w) :: rest, key, v =>
    if k = key then (key, v) :: rest else (k, w) :: ainsert rest key v

/-- `del d[key]`. -/
def aerase {α : Type} : List (String × α) → String → List (String × α)
  | [], _ => []
  | (k, w) :: rest, key => if k = key then rest else (k, w) :: aerase rest key

structure RuleEngineConfig where
  rules : List (String × Rule) := []
  rule_sets : List (String × RuleSet) := []
  default_rule_set : String := "default"
deriving DecidableEq

/-- The engine state: the global `config` plus the journal of configurations
written by `save_config` (one entry per successful persistence write). -/
structure EngineState where
  config : RuleEngineConfig
  journal : List RuleEngineConfig := []
deriving DecidableEq

/-- `RulesEngine.save_config`. -/
def saveConfig (st : EngineState) : EngineState :=
  { st with journal := st.journal ++ [st.config] }

/-! ## `RulesEngine` repository operations

Each method takes the timestamp produced by `datetime.now().isoformat()` as
an explicit `now` argument. -/

/-- `RulesEngine.get_rules_by_set`. -/
def getRulesBySet (cfg : RuleEngineConfig) (rule_set_id : Option String) :
    List Rule :=
  let sid := rule_set_id.getD cfg.default_rule_set
  match alookup cfg.rule_sets sid with
  | none => []
  | some rs => rs.rules.filterMap (fun rid => alookup cfg.rules rid)

/-- `RulesEngine.add_rule`. -/
def engineAddRule (st : EngineState) (rule : Rule) (now : String) :
    EngineState × String :=
  let r := { rule with updated_at := now }
  let cfg1 := { st.config with rules := ainsert st.config.rules r.id r }
  let cfg2 :=
    match alookup cfg1.rule_sets cfg1.default_rule_set with
    | some ds =>
      let ds' := { ds with rules := ds.rules ++ [r.id], updated_at := now }
      { cfg1 with rule_sets := ainsert cfg1.rule_sets cfg1.default_rule_set ds' }
    | none => cfg1
  (saveConfig { st with config := cfg2 }, r.id)

/-- `RulesEngine.update_rule`. -/
def engineUpdateRule (st : EngineState) (rule_id : String) (rule : Rule)
    (now : String) : EngineState × Bool :=
  match alookup st.config.rules rule_id with
  | none => (st, false)
  | some _ =>
    let r := { rule with id := rule_id, updated_at := now }
    let cfg' := { st.config with rules := ainsert st.config.rules rule_id r }
    (saveConfig { st with config := cfg' }, true)

/-- `list.remove(x)`: removes the first occurrence only. -/
def removeFirst (x : String) : List String → List String
  | [] => []
  | y :: ys => if y = x then ys else y :: removeFirst x ys

/-- The body of the rule-set update in `delete_rule`:
`rule_set.rules.remove(rule_id)` plus the `updated_at` refresh. -/
def removeFromSet (rule_id now : String) (rs : RuleSet) : RuleSet :=
  { rs with rules := removeFirst rule_id rs.rules, updated_at := now }

/-- `RulesEngine.delete_rule`. -/
def engineDeleteRule (st : EngineState) (rule_id : String) (now : String) :
    EngineState × Bool :=
  match alookup st.config.rules rule_id with
  | none => (st, false)
  | some _ =>
    let rule_sets' := st.config.rule_sets.map (fun kv =>
      if rule_id ∈ kv.2.rules then (kv.1, removeFromSet rule_id now kv.2)
      else kv)
    let cfg' := { st.config with
                  rule_sets := rule_sets'
                  rules := aerase st.config.rules rule_id }
    (saveConfig { st with config := cfg' }, true)

/-- `RulesEngine.add_rule_set`. -/
def engineAddRuleSet (st : EngineState) (rs : RuleSet) (now : String) :
    EngineState × String :=
  let r := { rs with updated_at := now }
  let cfg' := { st.config with rule_sets := ainsert st.config.rule_sets r.id r }
  (saveConfig { st with config := cfg' }, r.id)

/-- `RulesEngine.update_rule_set`. -/
def engineUpdateRuleSet (st : EngineState) (rule_set_id : String)
    (rs : RuleSet) (now : String) : EngineState × Bool :=
  match alookup st.config.rule_sets rule_set_id with
  | none => (st, false)
  | some _ =>
    let r := { rs with id := rule_set_id, updated_at := now }
    let cfg' :=
      { st.config with rule_sets := ainsert st.config.rule_sets rule_set_id r }
    (saveConfig { st with config := cfg' }, true)

/-- `RulesEngine.delete_rule_set`. -/
def engineDeleteRuleSet (st : EngineState) (rule_set_id : String) :
    EngineState × Bool :=
  match alookup st.config.rule_sets rule_set_id with
  | none => (st, false)
  | some _ =>
    if rule_set_id = st.config.default_rule_set then (st, false)
    else
      let cfg' :=
        { st.config with rule_sets := aerase st.config.rule_sets rule_set_id }
      (saveConfig { st with config := cfg' }, true)

/-- `RulesEngine.set_default_rule_set`. -/
def engineSetDefaultRuleSet (st : EngineState) (rule_set_id : String) :
    EngineState × Bool :=
  match alookup st.config.rule_sets rule_set_id with
  | none => (st, false)
  | some _ =>
    let cfg' := { st.config with default_rule_set := rule_set_id }
    (saveConfig { st with config := cfg' }, true)

/-! ## `process_text` -/

/-- One entry of the `results` list, tagged by its `action` field. -/
inductive RResult where
  | block (rule_id rule_name reason severity : String)
  | redact (rule_id rule_name original replacement : String)
  | flag (rule_id rule_name text flag_reason severity : String)
  | transform (rule_id rule_name original transformed transform_type : String)
  | error (rule_id rule_name error : String)
deriving DecidableEq

/-- The return value of `process_text`. -/
structure PTOutput where
  processed_text : String
  results : List RResult
  status : String
deriving DecidableEq

/-- Effect of evaluating one rule of the loop body: either the early
`return` of the `block` branch, or the next text plus the entries appended
to `results`. -/
inductive StepRes where
  | blocked (entry : RResult)
  | next (text : String) (entries : List RResult)
deriving DecidableEq

def blockEntry (r : Rule) : RResult :=
  .block r.id r.name (r.parameters.reason.getD "Blocked by rule")
    (r.parameters.severity.getD "high")

def redactEntries (r : Rule) (t : String) : List RResult :=
  (patFindall r.condition t).map (fun m => .redact r.id r.name m r.replacement)

def flagEntries (r : Rule) (t : String) : List RResult :=
  (patFindall r.condition t).map (fun m =>
    .flag r.id r.name m (r.parameters.flag_reason.getD "Flagged by rule")
      (r.parameters.severity.getD "info"))

/-- The `date_replacer` callback passed to `pattern.sub`: reformat the full
match if it parses as MM/DD/YYYY, else return it unchanged. -/
def dateReplace (fmt w : String) : String :=
  match parseDate w with
  | some d => formatDate fmt d
  | none => w

/-- The result entries of the date-transform branch: for every element of
`findall` (the first group's text when the pattern has groups), append an
entry when it parses as a date; parse failures are silently skipped. -/
def dateEntries (r : Rule) (fmt t : String) : List RResult :=
  (patFindall r.condition t).filterMap (fun m =>
    match parseDate m with
    | some d => some (.transform r.id r.name m (formatDate fmt d) "date")
    | none => none)

/-- `pattern.sub(date_replacer, t)`: each occurrence of the full pattern is
replaced by `date_replacer` applied to the full match text. -/
def dateSub (p : Pat) (fmt t : String) : String :=
  match p with
  | .bad _ => t
  | _ => subStr p.whole (dateReplace fmt p.whole) t

/-- The body of the `for rule in rules_to_apply` loop: the four `action`
branches in source order, the enclosing `try/except` turning a `re.error`
on a non-compiling condition into an `"error"` entry, and the fall-through
for a `transform_type` other than `"date"` or an unrecognized `action`
(the source has no `else` branch: such rules contribute nothing). -/
def applyRule (r : Rule) (t : String) : StepRes :=
  if r.action = "block" then
    match r.condition with
    | .bad src => .next t [.error r.id r.name (compileErr src)]
    | p => if patSearch p t then .blocked (blockEntry r) else .next t []
  else if r.action = "redact" then
    match r.condition with
    | .bad src => .next t [.error r.id r.name (compileErr src)]
    | _ => .next (patSub r.condition r.replacement t) (redactEntries r t)
  else if r.action = "flag" then
    match r.condition with
    | .bad src => .next t [.error r.id r.name (compileErr src)]
    | _ => .next t (flagEntries r t)
  else if r.action = "transform" then
    if r.parameters.transform_type = some "date" then
      match r.condition with
      | .bad src => .next t [.error r.id r.name (compileErr src)]
      | _ =>
        let fmt := r.parameters.format.getD "%Y-%m-%d"
        .next (dateSub r.condition fmt t) (dateEntries r fmt t)
    else .next t []
  else .next t []

/-- The fold over the sorted rule list, accumulating `(processed_text,
results)`; the `block` branch returns immediately with only the block
entry. -/
def processRules : List Rule → String → List RResult → PTOutput
  | [], t, res => ⟨t, res, "success"⟩
  | r :: rest, t, res =>
    match applyRule r t with
    | .blocked e => ⟨"", [e], "blocked"⟩
    | .next t' es => processRules rest t' (res ++ es)

/-- `r.priority ≥ other.priority`: the order used by
`rules_to_apply.sort(key=lambda r: r.priority, reverse=True)`. -/
def priorityGe (a b : Rule) : Prop := b.priority ≤ a.priority

instance : DecidableRel priorityGe :=
  fun a b => inferInstanceAs (Decidable (b.priority ≤ a.priority))

instance : IsTotal Rule priorityGe := ⟨fun a b => le_total b.priority a.priority⟩

instance : IsTrans Rule priorityGe :=
  ⟨fun _ _ _ h1 h2 => le_trans h2 h1⟩

/-- Python's `list.sort` is stable, so sorting by priority descending is the
stable insertion sort by `priorityGe` (a stable sort's output is uniquely
determined by the key order and the original order of ties). -/
def sortByPriority (l : List Rule) : List Rule := List.insertionSort priorityGe l

/-- Candidate gathering: `if rule_set_ids:` is Python truthiness, so both
`None` and `[]` fall back to the default rule set; otherwise the per-set
lists are concatenated in caller order without de-duplication. -/
def candidateRules (cfg : RuleEngineConfig) (ids : Option (List String)) :
    List Rule :=
  match ids with
  | some (i :: is) =>
    ((i :: is).map (fun sid => getRulesBySet cfg (some sid))).flatten
  | _ => getRulesBySet cfg none

def rulesToApply (cfg : RuleEngineConfig) (ids : Option (List String)) :
    List Rule :=
  sortByPriority ((candidateRules cfg ids).filter (fun r => r.enabled))

/-- `RulesEngine.process_text` (the `context` parameter is unused by the
source and omitted). -/
def processText (cfg : RuleEngineConfig) (text : String)
    (ids : Option (List String)) : PTOutput :=
  if text = "" then ⟨text, [], "success"⟩
  else processRules (rulesToApply cfg ids) text []

/-- `process_text` as a repository operation: the method reads the global
configuration, performs no assignment to it and never calls `save_config`,
so the state component is returned untouched. -/
def processTextOp (st : EngineState) (text : String)
    (ids : Option (List String)) : EngineState × PTOutput :=
  (st, processText st.config text ids)

/-! ## MCP tool layer for rule CRUD

`add_rule` and `update_rule` are the `@mcp_server.tool()` wrappers: they
perform the regex validation around the engine methods. Fresh ids and
timestamps (`uuid.uuid4()`, `datetime.now()`) are passed in explicitly. -/

inductive ToolReply where
  | ok (rule_id : String)
  | err (msg : String)
deriving DecidableEq

/-- The `add_rule` tool: build the `Rule`, validate `re.compile(condition)`
before any store mutation, then `rules_engine.add_rule`. -/
def addRuleTool (st : EngineState) (newId now : String)
    (name description : String) (condition : Pat) (action replacement : String)
    (parameters : Params) (priority : Int) : EngineState × ToolReply :=
  let rule : Rule :=
    { id := newId, name := name, description := description
      condition := condition, action := action, replacement := replacement
      parameters := parameters, enabled := true, priority := priority
      created_at := now, updated_at := now }
  match condition with
  | .bad src => (st, .err ("Invalid regex pattern: " ++ src))
  | _ =>
    let p := engineAddRule st rule now
    (p.1, .ok p.2)

/-- The optional field arguments of the `update_rule` tool (`None` means the
field is not updated). -/
structure RuleUpdateFields where
  name : Option String := none
  description : Option String := none
  condition : Option Pat := none
  action : Option String := none
  replacement : Option String := none
  parameters : Option Params := none
  enabled : Option Bool := none
  priority : Option Int := none
deriving DecidableEq

/-- The `setattr(existing_rule, field, value)` loop over the provided
fields. -/
def applyFields (r : Rule) (f : RuleUpdateFields) : Rule :=
  { r with
    name := f.name.getD r.name
    description := f.description.getD r.description
    condition := f.condition.getD r.condition
    action := f.action.getD r.action
    replacement := f.replacement.getD r.replacement
    parameters := f.parameters.getD r.parameters
    enabled := f.enabled.getD r.enabled
    priority := f.priority.getD r.priority }

/-- The `update_rule` tool. `existing_rule` is the very object stored in
`config.rules`, so the `setattr` loop mutates the store before the regex
validation runs; a validation failure returns after that mutation and
before `rules_engine.update_rule` (so no timestamp refresh and no save). -/
def updateRuleTool (st : EngineState) (rule_id now : String)
    (f : RuleUpdateFields) : EngineState × ToolReply :=
  match alookup st.config.rules rule_id with
  | none => (st, .err ("Rule not found: " ++ rule_id))
  | some r0 =>
    let r1 := applyFields r0 f
    let st1 := { st with config :=
      { st.config with rules := ainsert st.config.rules rule_id r1 } }
    match f.condition with
    | some (.bad src) => (st1, .err ("Invalid regex pattern: " ++ src))
    | _ =>
      let p := engineUpdateRule st1 rule_id r1 now
      if p.2 then (p.1, .ok rule_id) else (p.1, .err "Failed to update rule")

/-! ## The repository operations as a single step relation -/

inductive Op where
  | procText (text : String) (ids : Option (List String))
  | addR (rule : Rule)
  | updR (rule_id : String) (rule : Rule)
  | delR (rule_id : String)
  | addRS (rs : RuleSet)
  | updRS (rule_set_id : String) (rs : RuleSet)
  | delRS (rule_set_id : String)
  | setDefaultRS (rule_set_id : String)
deriving DecidableEq

/-- The state reached after one engine operation. -/
def step (st : EngineState) (now : String) : Op → EngineState
  | .procText t ids => (processTextOp st t ids).1
  | .addR rule => (engineAddRule st rule now).1
  | .updR rid rule => (engineUpdateRule st rid rule now).1
  | .delR rid => (engineDeleteRule st rid now).1
  | .addRS rs => (engineAddRuleSet st rs now).1
  | .updRS rsid rs => (engineUpdateRuleSet st rsid rs now).1
  | .delRS rsid => (engineDeleteRuleSet st rsid).1
  | .setDefaultRS rsid => (engineSetDefaultRuleSet st rsid).1

/-- The invariant of claim C10: the designated default rule set exists. -/
def defaultPresent (cfg : RuleEngineConfig) : Prop :=
  (alookup cfg.rule_sets cfg.default_rule_set).isSome = true

instance (cfg : RuleEngineConfig) : Decidable (defaultPresent cfg) :=
  inferInstanceAs (Decidable (_ = true))

/-! ## Concrete fixtures used by witnesses and counterexamples -/

/-- The seeded SSN rule with its pattern specialised to one concrete SSN
(the seed regex has no capturing group, like `lit`). -/
def rSSN : Rule := { id := "r-ssn", name := "SSN", condition := .lit "123-45-6789", action := "redact", replacement := "<SSN>", priority := 100 }

/-- A date-transform rule whose pattern carries a capturing group, as the
seeded Date Transform rule's regex does. -/
def rDateGrp : Rule := { id := "r-date", name := "Date Transform", condition := .grp "" "01" "/02/1999", action := "transform", parameters := { transform_type := some "date", format := some "%Y-%m-%d" }, priority := 30 }

def setDateGrp : RuleSet := { id := "default", name := "Default", rules := ["r-date"] }

def cfgDateGrp : RuleEngineConfig := { rules := [("r-date", rDateGrp)], rule_sets := [("default", setDateGrp)], default_rule_set := "default" }

/-- A date-transform rule with a group-free pattern. -/
def rDateLit : Rule := { id := "r-datelit", name := "Date Transform", condition := .lit "12/25/2020", action := "transform", parameters := { transform_type := some "date", format := some "%Y-%m-%d" }, priority := 30 }

/-- An enabled rule whose action string is none of the four dispatched ones. -/
def rUpper : Rule := { id := "r-up", name := "Upper", condition := .lit "hello", action := "uppercase", priority := 5 }

def setUpper : RuleSet := { id := "default", name := "Default", rules := ["r-up"] }

def cfgUpper : RuleEngineConfig := { rules := [("r-up", rUpper)], rule_sets := [("default", setUpper)], default_rule_set := "default" }

/-- A block rule in the shape of the seeded Profanity Block rule. -/
def rBlockW : Rule := { id := "rb", name := "Profanity Block", condition := .lit "badword", action := "block", parameters := { reason := some "Contains strong profanity", severity := some "high" }, priority := 200 }

def rPlain : Rule := { id := "r1", name := "X", condition := .lit "a" }

/-- A rule set whose membership lists the same rule id twice. -/
def setDup : RuleSet := { id := "s1", name := "S", rules := ["r1", "r1"] }

def stDup : EngineState := { config := { rules := [("r1", rPlain)], rule_sets := [("s1", setDup)], default_rule_set := "default" } }

def setDefault8 : RuleSet := { id := "default", name := "Default" }

def stD8 : EngineState := { config := { rules := [], rule_sets := [("default", setDefault8)], default_rule_set := "default" } }

def stC4 : EngineState := { config := { rules := [("r1", rPlain)], rule_sets := [("default", setDefault8)], default_rule_set := "default" } }

/-- The fields of an `update_rule` call supplying only a non-compiling
condition. -/
def fC4 : RuleUpdateFields := { condition := some (.bad "[unclosed") }

def rHi : Rule := { id := "hi", name := "Hi", condition := .lit "aaa", action := "redact", replacement := "X", priority := 10 }

def rLo : Rule := { id := "lo", name := "Lo", condition := .lit "bbb", action := "redact", replacement := "Y", priority := 5 }

def stDel10 : EngineState := { config := { rules := [("r1", rPlain)], rule_sets := [("default", setDefault8), ("s1", setDup)], default_rule_set := "default" } }

/-! ## Helper lemmas -/

theorem alookup_ainsert {α : Type} (l : List (String × α)) (k : String) (v : α)
    (k' : String) :
    alookup (ainsert l k v) k' = if k' = k then some v else alookup l k' := by
  induction l with
  | nil =>
    simp only [ainsert, alookup]
    by_cases h : k' = k
    · subst h; simp
    · rw [if_neg (fun hh : k = k' => h hh.symm), if_neg h]
  | cons kv rest ih =>
    obtain ⟨k0, w⟩ := kv
    by_cases h0 : k0 = k
    · subst h0
      simp only [ainsert, if_pos rfl, alookup]
      by_cases h1 : k' = k0
      · subst h1; simp
      · rw [if_neg (fun hh : k0 = k' => h1 hh.symm), if_neg h1,
          if_neg (fun hh : k0 = k' => h1 hh.symm)]
    · simp only [ainsert, if_neg h0, alookup, ih]
      by_cases h1 : k0 = k'
      · subst h1
        rw [if_pos rfl, if_neg (fun hh : k0 = k => h0 hh), if_pos rfl]
      · rw [if_neg h1, if_neg h1]

theorem alookup_aerase_ne {α : Type} (l : List (String × α)) (k k' : String)
    (h : k' ≠ k) : alookup (aerase l k) k' = alookup l k' := by
  induction l with
  | nil => rfl
  | cons kv rest ih =>
    obtain ⟨k0, w⟩ := kv
    by_cases h0 : k0 = k
    · simp only [aerase, if_pos h0, alookup]
      rw [if_neg (fun hh : k0 = k' => h (hh.symm.trans h0))]
    · simp only [aerase, if_neg h0, alookup, ih]

theorem alookup_aerase_self {α : Type} (l : List (String × α)) (k : String)
    (hnd : (l.map Prod.fst).Nodup) : alookup (aerase l k) k = none := by
  induction l with
  | nil => rfl
  | cons kv rest ih =>
    obtain ⟨k0, w⟩ := kv
    simp only [List.map_cons, List.nodup_cons] at hnd
    by_cases h0 : k0 = k
    · subst h0
      have : ∀ m, m ∈ rest → m.1 ≠ k0 := by
        intro m hm he
        exact hnd.1 (he ▸ List.mem_map_of_mem Prod.fst hm)
      simp only [aerase, if_pos rfl]
      clear ih hnd
      induction rest with
      | nil => rfl
      | cons m ms ihm =>
        have hm1 : m.1 ≠ k0 := this m (List.mem_cons_self m ms)
        obtain ⟨m1, m2⟩ := m
        simp only [alookup, if_neg hm1]
        exact ihm (fun x hx => this x (List.mem_cons_of_mem _ hx))
    · simp [aerase, alookup, h0, ih hnd.2]

theorem alookup_map_removeFromSet (rid now : String)
    (l : List (String × RuleSet)) (k : String) :
    alookup (l.map (fun kv =>
        if rid ∈ kv.2.rules then (kv.1, removeFromSet rid now kv.2) else kv)) k =
      (alookup l k).map (fun rs =>
        if rid ∈ rs.rules then removeFromSet rid now rs else rs) := by
  induction l with
  | nil => rfl
  | cons kv rest ih =>
    obtain ⟨k0, rs0⟩ := kv
    simp only [List.map_cons]
    by_cases hm : rid ∈ rs0.rules
    · rw [if_pos hm]
      simp only [alookup]
      by_cases h0 : k0 = k
      · rw [if_pos h0, if_pos h0]
        simp [hm]
      · rw [if_neg h0, if_neg h0, ih]
    · rw [if_neg hm]
      simp only [alookup]
      by_cases h0 : k0 = k
      · rw [if_pos h0, if_pos h0]
        simp [hm]
      · rw [if_neg h0, if_neg h0, ih]

theorem filterMap_replicate_some {α β : Type} (f : α → Option β) (a : α)
    (b : β) (n : Nat) (h : f a = some b) :
    List.filterMap f (List.replicate n a) = List.replicate n b := by
  induction n with
  | zero => rfl
  | succ n ih => simp [List.replicate_succ, List.filterMap_cons, h, ih]

theorem filterMap_replicate_none {α β : Type} (f : α → Option β) (a : α)
    (n : Nat) (h : f a = none) :
    List.filterMap f (List.replicate n a) = [] := by
  induction n with
  | zero => rfl
  | succ n ih => simp [List.replicate_succ, List.filterMap_cons, h, ih]

theorem prefix_append_drop (p : List Char) (c : Char) (cs : List Char)
    (hne : p ≠ []) (hpre : p.isPrefixOf (c :: cs) = true) :
    p ++ List.drop (p.length - 1) cs = c :: cs := by
  have hp : ∃ t, p ++ t = c :: cs := List.isPrefixOf_iff_prefix.mp hpre
  obtain ⟨tail, htail⟩ := hp
  match p, hne with
  | ph :: pt, _ =>
    simp only [List.cons_append, List.cons.injEq] at htail
    obtain ⟨hc1, hc2⟩ := htail
    subst hc1
    have hlen : (ph :: pt).length - 1 = pt.length := by simp
    rw [hlen, ← hc2, List.drop_left, List.cons_append]

theorem subCharsF_self (p : List Char) :
    ∀ (fuel : Nat) (l : List Char), l.length ≤ fuel →
      subCharsF p p fuel l = l := by
  intro fuel
  induction fuel with
  | zero =>
    intro l hl
    match l with
    | [] => rfl
    | c :: cs => simp at hl
  | succ n ih =>
    intro l hl
    match l with
    | [] => rfl
    | c :: cs =>
      rw [subCharsF]
      split
      case isTrue h =>
        obtain ⟨hne, hpre⟩ := h
        have hsplit := prefix_append_drop p c cs hne hpre
        have hlen : (List.drop (p.length - 1) cs).length ≤ n := by
          have := List.length_drop (p.length - 1) cs
          have hcs : cs.length ≤ n := by
            simpa using Nat.le_of_succ_le_succ hl
          omega
        rw [ih _ hlen, hsplit]
      case isFalse h =>
        rw [ih cs (by simpa using Nat.le_of_succ_le_succ hl)]

theorem subStr_self (s t : String) : subStr s s t = t := by
  obtain ⟨l⟩ := t
  show String.mk (subCharsF s.data s.data l.length l) = String.mk l
  rw [subCharsF_self s.data l.length l (le_refl _)]

theorem count_removeFirst (x : String) (l : List String) (h : x ∈ l) :
    List.count x (removeFirst x l) = List.count x l - 1 := by
  induction l with
  | nil => simp at h
  | cons y ys ih =>
    by_cases hy : y = x
    · subst hy
      simp [removeFirst, List.count_cons]
    · have hmem : x ∈ ys := by
        rcases List.mem_cons.mp h with h1 | h1
        · exact absurd h1.symm hy
        · exact h1
      simp [removeFirst, hy, List.count_cons, ih hmem]

theorem filter_orderedInsert_priority (p : Int) (a : Rule) (l : List Rule) :
    (List.orderedInsert priorityGe a l).filter (fun r => decide (r.priority = p)) =
      if a.priority = p then
        a :: l.filter (fun r => decide (r.priority = p))
      else l.filter (fun r => decide (r.priority = p)) := by
  induction l with
  | nil =>
    by_cases h : a.priority = p <;> simp [List.orderedInsert, h]
  | cons b bs ih =>
    by_cases hab : priorityGe a b
    · rw [List.orderedInsert, if_pos hab]
      by_cases h : a.priority = p <;> simp [h]
    · rw [List.orderedInsert, if_neg hab]
      have hbp : a.priority < b.priority := by
        have := hab
        simp only [priorityGe, not_le] at this
        exact this
      by_cases h : a.priority = p
      · have hb : ¬(b.priority = p) := by omega
        simp [List.filter_cons, hb, h, ih]
      · simp [List.filter_cons, h, ih]

theorem filter_sortByPriority (l : List Rule) (p : Int) :
    (sortByPriority l).filter (fun r => decide (r.priority = p)) =
      l.filter (fun r => decide (r.priority = p)) := by
  induction l with
  | nil => rfl
  | cons a l ih =>
    show (List.orderedInsert priorityGe a (sortByPriority l)).filter _ = _
    rw [filter_orderedInsert_priority]
    by_cases h : a.priority = p <;> simp [h, ih, List.filter_cons]

/-! ## The claims -/

/-- Claim C1: whenever the fold inside `process_text` reaches an enabled rule
with action `block` whose pattern matches the current text, the call returns
at once with empty `processed_text`, status `blocked`, and exactly the one
block entry carrying that rule's id, name, reason and severity — any results
accumulated by earlier rules in the fold are discarded; and for nonempty
input, `process_text` is exactly this fold over the sorted enabled candidate
rules starting from an empty results list. -/
theorem c1_block_short_circuit :
    (∀ (r : Rule) (rest : List Rule) (t : String) (res : List RResult),
      r.enabled = true → r.action = "block" → compileOk r.condition = true →
      patSearch r.condition t = true →
      processRules (r :: rest) t res =
        ⟨"", [RResult.block r.id r.name
          (r.parameters.reason.getD "Blocked by rule")
          (r.parameters.severity.getD "high")], "blocked"⟩)
    ∧ (∀ (cfg : RuleEngineConfig) (t : String) (ids : Option (List String)),
      t ≠ "" →
      processText cfg t ids = processRules (rulesToApply cfg ids) t []) := by
  constructor
  · intro r rest t res hen hact hok hmatch
    cases hc : r.condition with
    | bad src => rw [hc] at hok; simp [compileOk] at hok
    | lit s =>
      rw [hc] at hmatch
      simp [processRules, applyRule, hact, hc, hmatch, blockEntry]
    | grp a g b =>
      rw [hc] at hmatch
      simp [processRules, applyRule, hact, hc, hmatch, blockEntry]
  · intro cfg t ids ht
    simp [processText, ht]

/-- Witness for C1 at a concrete block rule, text and pre-existing results. -/
theorem c1_witness :
    processRules [rBlockW] "has badword here" [RResult.flag "x" "y" "z" "w" "v"] =
      ⟨"", [RResult.block "rb" "Profanity Block" "Contains strong profanity"
        "high"], "blocked"⟩ ∧
    processText cfgUpper "hello world" none =
      processRules (rulesToApply cfgUpper none) "hello world" [] := by
  constructor
  · have h := c1_block_short_circuit.1 rBlockW [] "has badword here"
      [RResult.flag "x" "y" "z" "w" "v"] rfl rfl (by decide) (by decide)
    exact h.trans (by decide)
  · exact c1_block_short_circuit.2 cfgUpper "hello world" none (by decide)

/-- Claim C2 counterexample: with a date-transform rule whose pattern carries
a capturing group (as the seeded Date Transform rule's regex does), the full
match 01/02/1999 parses as an MM/DD/YYYY date and is substituted in the
text, yet no transform result entry is appended — the entry side works on
the first group's text, which fails to parse. -/
theorem c2_counterexample :
    parseDate "01/02/1999" = some ⟨1, 2, 1999⟩ ∧
    processText cfgDateGrp "01/02/1999" none =
      ⟨"1999-01-02", [], "success"⟩ := by
  exact ⟨by decide, by decide⟩

/-- Claim C2 (amended): for a date-transform rule whose pattern has no
capturing group, each match that parses as an MM/DD/YYYY date yields one
transform result entry (original, reformatted value, kind `date`) and every
occurrence is substituted with the reformatted value; when the match fails
to parse, the text is left unchanged and no result entry is produced. With
a capturing group, the result-entry side instead parses the first group's
text while the substitution still reformats full matches (see the
counterexample). -/
theorem c2_transform_date_literal (r : Rule) (s t fmt : String)
    (hact : r.action = "transform")
    (htt : r.parameters.transform_type = some "date")
    (hfmt : r.parameters.format.getD "%Y-%m-%d" = fmt)
    (hcond : r.condition = .lit s) :
    (∀ d, parseDate s = some d →
      applyRule r t = .next (subStr s (formatDate fmt d) t)
        (List.replicate (countStr s t)
          (RResult.transform r.id r.name s (formatDate fmt d) "date")))
    ∧ (parseDate s = none → applyRule r t = .next t []) := by
  have happ : applyRule r t =
      .next (dateSub (.lit s) fmt t) (dateEntries r fmt t) := by
    simp [applyRule, hact, htt, hcond, hfmt]
  constructor
  · intro d hd
    have he : dateEntries r fmt t =
        List.replicate (countStr s t)
          (RResult.transform r.id r.name s (formatDate fmt d) "date") := by
      rw [dateEntries, hcond]
      show List.filterMap _ (List.replicate (countStr s t) s) = _
      exact filterMap_replicate_some _ s _ (countStr s t) (by simp [hd])
    have hs : dateSub (.lit s) fmt t = subStr s (formatDate fmt d) t := by
      show subStr s (dateReplace fmt s) t = _
      rw [dateReplace, hd]
    rw [happ, hs, he]
  · intro hd
    have he : dateEntries r fmt t = [] := by
      rw [dateEntries, hcond]
      show List.filterMap _ (List.replicate (countStr s t) s) = _
      exact filterMap_replicate_none _ s (countStr s t) (by simp [hd])
    have hs : dateSub (.lit s) fmt t = t := by
      show subStr s (dateReplace fmt s) t = t
      rw [dateReplace, hd, subStr_self]
    rw [happ, hs, he]

/-- Witness for C2's amended theorem at a group-free date rule: both the
successful-parse branch and the substitution. -/
theorem c2_witness :
    applyRule rDateLit "on 12/25/2020 ok" = .next "on 2020-12-25 ok"
      [RResult.transform "r-datelit" "Date Transform" "12/25/2020"
        "2020-12-25" "date"] := by
  have h := (c2_transform_date_literal rDateLit "12/25/2020" "on 12/25/2020 ok"
    "%Y-%m-%d" rfl rfl rfl rfl).1 ⟨12, 25, 2020⟩ (by decide)
  exact h.trans (by decide)

/-- Claim C3 counterexample: an enabled rule whose action is none of the
four dispatched strings is evaluated but records nothing at all — the source
has no fall-through branch — so no `error` entry with
`unsupported action` ever appears. -/
theorem c3_counterexample :
    processText cfgUpper "hello world" none =
      ⟨"hello world", [], "success"⟩ ∧
    RResult.error "r-up" "Upper" "unsupported action" ∉
      (processText cfgUpper "hello world" none).results := by
  exact ⟨by decide, by decide⟩

/-- Claim C3 (amended): a rule whose action string is none of `redact`,
`flag`, `block`, `transform` leaves the current text unchanged, records no
result entry of any kind, and the fold continues with the next rule. -/
theorem c3_unrecognized_action (r : Rule) (rest : List Rule) (t : String)
    (res : List RResult)
    (hb : r.action ≠ "block") (hr : r.action ≠ "redact")
    (hf : r.action ≠ "flag") (htr : r.action ≠ "transform") :
    applyRule r t = .next t [] ∧
    processRules (r :: rest) t res = processRules rest t res := by
  have h1 : applyRule r t = .next t [] := by
    simp [applyRule, hb, hr, hf, htr]
  refine ⟨h1, ?_⟩
  simp [processRules, h1]

/-- Witness for C3's amended theorem at a concrete unrecognized action. -/
theorem c3_witness :
    applyRule rUpper "hello world" = .next "hello world" [] ∧
    processRules [rUpper] "hello world" [] =
      processRules [] "hello world" [] := by
  exact c3_unrecognized_action rUpper [] "hello world" []
    (by decide) (by decide) (by decide) (by decide)

/-- Claim C4: the `update_rule` tool applies the provided fields to the
stored rule object itself before validating the condition, so a
non-compiling condition returns the `InvalidPattern` error while the store
already holds the mutated rule (no save occurs); `add_rule`, by contrast,
validates before insertion and leaves the state untouched. Evaluated at the
failing input of the claim. -/
theorem c4_update_rule_invalid_pattern_mutates :
    (updateRuleTool stC4 "r1" "t1" fC4).2 =
      .err "Invalid regex pattern: [unclosed" ∧
    (alookup (updateRuleTool stC4 "r1" "t1" fC4).1.config.rules "r1").map
      Rule.condition = some (.bad "[unclosed") ∧
    (updateRuleTool stC4 "r1" "t1" fC4).1.config ≠ stC4.config ∧
    (updateRuleTool stC4 "r1" "t1" fC4).1.journal = stC4.journal ∧
    addRuleTool stC4 "new-id" "t1" "N" "" (.bad "[unclosed") "redact"
      "<REDACTED>" {} 0 = (stC4, .err "Invalid regex pattern: [unclosed") := by
  exact ⟨by decide, by decide, by decide, by decide, by decide⟩

/-- Claim C5: for an enabled redact rule, one result entry is appended per
match of the pattern in the current text — `original` is the first capturing
group's text when the pattern has a group, the full match otherwise, and
`replacement` is the rule's configured replacement — and the next text is
obtained by replacing every match occurrence with the replacement. -/
theorem c5_redact_semantics (r : Rule) (t : String)
    (hact : r.action = "redact") :
    (∀ s, r.condition = .lit s →
      applyRule r t = .next (subStr s r.replacement t)
        (List.replicate (countStr s t)
          (RResult.redact r.id r.name s r.replacement)))
    ∧ (∀ pre g post, r.condition = .grp pre g post →
      applyRule r t = .next (subStr (pre ++ g ++ post) r.replacement t)
        (List.replicate (countStr (pre ++ g ++ post) t)
          (RResult.redact r.id r.name g r.replacement))) := by
  constructor
  · intro s hc
    simp [applyRule, hact, hc, patSub, Pat.whole, redactEntries, patFindall,
      List.map_replicate]
  · intro pre g post hc
    simp [applyRule, hact, hc, patSub, Pat.whole, redactEntries, patFindall,
      List.map_replicate]

/-- Witness for C5: the seeded SSN shape on the spec's example text. -/
theorem c5_witness :
    applyRule rSSN "My SSN is 123-45-6789." =
      .next "My SSN is <SSN>."
        [RResult.redact "r-ssn" "SSN" "123-45-6789" "<SSN>"] := by
  have h := (c5_redact_semantics rSSN "My SSN is 123-45-6789." rfl).1
    "123-45-6789" rfl
  exact h.trans (by decide)

/-- Claim C6: `process_text` filters the candidates to enabled rules and
sorts them by priority descending with a stable sort (the sorted list is a
permutation, is pairwise ordered by priority, and rules of any fixed
priority keep their relative order); for two rules of different priorities
the higher one is sorted first, and the fold hands the lower-priority rule
the text already rewritten by the higher-priority one, with the
higher-priority rule's entries preceding. -/
theorem c6_priority_order :
    (∀ (cfg : RuleEngineConfig) (ids : Option (List String)),
      rulesToApply cfg ids =
        sortByPriority ((candidateRules cfg ids).filter (fun r => r.enabled)))
    ∧ (∀ l : List Rule, (sortByPriority l).Perm l)
    ∧ (∀ l : List Rule, List.Pairwise priorityGe (sortByPriority l))
    ∧ (∀ (l : List Rule) (p : Int),
      (sortByPriority l).filter (fun r => decide (r.priority = p)) =
        l.filter (fun r => decide (r.priority = p)))
    ∧ (∀ r1 r2 : Rule, r2.priority < r1.priority →
        sortByPriority [r2, r1] = [r1, r2])
    ∧ (∀ (r1 r2 : Rule) (t t1 t2 : String) (es1 es2 : List RResult),
      applyRule r1 t = .next t1 es1 → applyRule r2 t1 = .next t2 es2 →
      processRules [r1, r2] t [] = ⟨t2, es1 ++ es2, "success"⟩) := by
  refine ⟨fun _ _ => rfl, ?_, ?_, ?_, ?_, ?_⟩
  · intro l
    exact List.perm_insertionSort priorityGe l
  · intro l
    exact List.sorted_insertionSort priorityGe l
  · intro l p
    exact filter_sortByPriority l p
  · intro r1 r2 h
    have hng : ¬ priorityGe r2 r1 := by
      simp only [priorityGe, not_le]
      exact h
    simp [sortByPriority, List.insertionSort, List.orderedInsert, hng]
  · intro r1 r2 t t1 t2 es1 es2 h1 h2
    simp [processRules, h1, h2]

/-- Witness for C6: two concrete redact rules of different priorities on
disjoint substrings — the lower-priority rule is fed the rewritten text and
its entry comes second. -/
theorem c6_witness :
    sortByPriority [rLo, rHi] = [rHi, rLo] ∧
    processRules [rHi, rLo] "aaa bbb" [] =
      ⟨"X Y", [RResult.redact "hi" "Hi" "aaa" "X",
        RResult.redact "lo" "Lo" "bbb" "Y"], "success"⟩ := by
  constructor
  · exact c6_priority_order.2.2.2.2.1 rHi rLo (by decide)
  · have h := c6_priority_order.2.2.2.2.2 rHi rLo "aaa bbb" "X bbb" "X Y"
      [RResult.redact "hi" "Hi" "aaa" "X"] [RResult.redact "lo" "Lo" "bbb" "Y"]
      (by decide) (by decide)
    exact h.trans (by decide)

/-- Claim C7 counterexample: deleting a rule whose id occurs twice in a rule
set's membership list leaves the second occurrence behind —
`list.remove` deletes only the first occurrence. (`get_rules_by_set`
nevertheless no longer returns the rule, since it is gone from the rules
map.) -/
theorem c7_counterexample :
    (engineDeleteRule stDup "r1" "t1").2 = true ∧
    (alookup (engineDeleteRule stDup "r1" "t1").1.config.rule_sets "s1").map
      RuleSet.rules = some ["r1"] ∧
    getRulesBySet (engineDeleteRule stDup "r1" "t1").1.config (some "s1") =
      [] := by
  exact ⟨by decide, by decide, by decide⟩

/-- Claim C7 (amended): for every stored rule id, `delete_rule` succeeds,
removes the id from the rules map, removes the first occurrence of the id
from each rule set's membership list that contains it (later duplicates
survive, their count dropping by exactly one), and every rule returned by a
subsequent `get_rules_by_set` is looked up under a key other than the
deleted id — so the deleted rule is excluded. -/
theorem c7_delete_rule_first_occurrence (st : EngineState) (rid now : String)
    (hmem : (alookup st.config.rules rid).isSome = true)
    (hnd : (st.config.rules.map Prod.fst).Nodup) :
    (engineDeleteRule st rid now).2 = true ∧
    alookup (engineDeleteRule st rid now).1.config.rules rid = none ∧
    (∀ sid rs, alookup st.config.rule_sets sid = some rs →
      alookup (engineDeleteRule st rid now).1.config.rule_sets sid =
        some (if rid ∈ rs.rules then removeFromSet rid now rs else rs)) ∧
    (∀ rs : RuleSet, rid ∈ rs.rules →
      List.count rid (removeFromSet rid now rs).rules =
        List.count rid rs.rules - 1) ∧
    (∀ sid r, r ∈ getRulesBySet (engineDeleteRule st rid now).1.config
        (some sid) →
      ∃ rid2, rid2 ≠ rid ∧
        alookup (engineDeleteRule st rid now).1.config.rules rid2 = some r) := by
  obtain ⟨v, hv⟩ := Option.isSome_iff_exists.mp hmem
  have hstep : engineDeleteRule st rid now =
      (saveConfig { st with config :=
        { st.config with
          rule_sets := st.config.rule_sets.map (fun kv =>
            if rid ∈ kv.2.rules then (kv.1, removeFromSet rid now kv.2) else kv)
          rules := aerase st.config.rules rid } }, true) := by
    rw [engineDeleteRule, hv]
  have herased : alookup (engineDeleteRule st rid now).1.config.rules rid =
      none := by
    rw [hstep]
    exact alookup_aerase_self st.config.rules rid hnd
  refine ⟨by rw [hstep], herased, ?_, ?_, ?_⟩
  · intro sid rs hrs
    rw [hstep]
    show alookup (st.config.rule_sets.map _) sid = _
    rw [alookup_map_removeFromSet, hrs]
    rfl
  · intro rs hin
    show List.count rid (removeFirst rid rs.rules) = _
    exact count_removeFirst rid rs.rules hin
  · intro sid r hr
    rw [getRulesBySet] at hr
    rcases hlook : alookup (engineDeleteRule st rid now).1.config.rule_sets
        (Option.getD (some sid) _) with _ | rs'
    · rw [hlook] at hr
      simp at hr
    · rw [hlook] at hr
      simp only [List.mem_filterMap] at hr
      obtain ⟨rid2, _, hrid2⟩ := hr
      refine ⟨rid2, ?_, hrid2⟩
      intro he
      rw [he, herased] at hrid2
      exact Option.noConfusion hrid2

/-- Witness for C7's amended theorem at the duplicate-membership state. -/
theorem c7_witness :
    (engineDeleteRule stDup "r1" "t1").2 = true ∧
    alookup (engineDeleteRule stDup "r1" "t1").1.config.rules "r1" = none := by
  have h := c7_delete_rule_first_occurrence stDup "r1" "t1"
    (by decide) (by decide)
  exact ⟨h.1, h.2.1⟩

/-- Claim C8 counterexample: the source signals refusing to delete the
default rule set and failing to find an unknown rule set with the same bare
`False` — the two failures are indistinguishable, there is no distinct
`CannotDeleteDefaultRuleSet` outcome. -/
theorem c8_counterexample :
    stD8.config.default_rule_set = "default" ∧
    alookup stD8.config.rule_sets "no-such-set" = none ∧
    engineDeleteRuleSet stD8 "default" = (stD8, false) ∧
    engineDeleteRuleSet stD8 "no-such-set" = (stD8, false) := by
  exact ⟨by decide, by decide, by decide, by decide⟩

/-- Claim C8 (amended): deleting the rule set named by `default_rule_set`
fails — returning the same generic failure (`False`, no state change, no
save) that an unknown id produces — and afterwards both the default rule
set entry and the `default_rule_set` field are exactly as before. -/
theorem c8_delete_default_rule_set_refused (st : EngineState) :
    engineDeleteRuleSet st st.config.default_rule_set = (st, false) := by
  rw [engineDeleteRuleSet]
  cases h : alookup st.config.rule_sets st.config.default_rule_set with
  | none => rfl
  | some rs => simp

/-- Claim C9: `process_text` never mutates the configuration — the rules
map, the rule sets and the default designation are untouched — and performs
no persistence write: the method only reads the global config and never
calls `save_config`. -/
theorem c9_process_text_frame (st : EngineState) (text : String)
    (ids : Option (List String)) :
    (processTextOp st text ids).1 = st ∧
    (processTextOp st text ids).1.config = st.config ∧
    (processTextOp st text ids).1.journal = st.journal :=
  ⟨rfl, rfl, rfl⟩

/-- Claim C10: every repository operation preserves the invariant that
`default_rule_set` names an existing rule set; `delete_rule_set` applied to
the default id leaves the rule-set map untouched, and
`set_default_rule_set` succeeds only when its argument names an existing
rule set. -/
theorem c10_default_rule_set_invariant :
    (∀ (st : EngineState) (now : String) (op : Op),
      defaultPresent st.config → defaultPresent (step st now op).config)
    ∧ (∀ st : EngineState,
      (engineDeleteRuleSet st st.config.default_rule_set).1.config.rule_sets =
        st.config.rule_sets)
    ∧ (∀ (st : EngineState) (rsid : String),
      (engineSetDefaultRuleSet st rsid).2 = true →
        (alookup st.config.rule_sets rsid).isSome = true) := by
  refine ⟨?_, ?_, ?_⟩
  · intro st now op h
    cases op with
    | procText t ids => exact h
    | addR rule =>
      show defaultPresent (engineAddRule st rule now).1.config
      rw [engineAddRule]
      cases hm : alookup st.config.rule_sets st.config.default_rule_set with
      | none => simpa [saveConfig, defaultPresent] using h
      | some ds =>
        simp only [saveConfig, defaultPresent, alookup_ainsert]
        simp
    | updR rid rule =>
      show defaultPresent (engineUpdateRule st rid rule now).1.config
      rw [engineUpdateRule]
      cases hm : alookup st.config.rules rid with
      | none => exact h
      | some r0 => simpa [saveConfig, defaultPresent] using h
    | delR rid =>
      show defaultPresent (engineDeleteRule st rid now).1.config
      rw [engineDeleteRule]
      cases hm : alookup st.config.rules rid with
      | none => exact h
      | some r0 =>
        simp only [saveConfig, defaultPresent, alookup_map_removeFromSet]
        simpa [Option.isSome_map] using h
    | addRS rs =>
      show defaultPresent (engineAddRuleSet st rs now).1.config
      rw [engineAddRuleSet]
      simp only [saveConfig, defaultPresent, alookup_ainsert]
      by_cases he : st.config.default_rule_set = rs.id
      · simp [he]
      · simpa [he] using h
    | updRS rsid rs =>
      show defaultPresent (engineUpdateRuleSet st rsid rs now).1.config
      rw [engineUpdateRuleSet]
      cases hm : alookup st.config.rule_sets rsid with
      | none => exact h
      | some rs0 =>
        simp only [saveConfig, defaultPresent, alookup_ainsert]
        by_cases he : st.config.default_rule_set = rsid
        · simp [he]
        · simpa [he] using h
    | delRS rsid =>
      show defaultPresent (engineDeleteRuleSet st rsid).1.config
      rw [engineDeleteRuleSet]
      cases hm : alookup st.config.rule_sets rsid with
      | none => exact h
      | some rs0 =>
        by_cases he : rsid = st.config.default_rule_set
        · simpa [he] using h
        · simp only [he, if_false, saveConfig, defaultPresent]
          rw [alookup_aerase_ne _ _ _ (fun hh => he hh.symm)]
          exact h
    | setDefaultRS rsid =>
      show defaultPresent (engineSetDefaultRuleSet st rsid).1.config
      rw [engineSetDefaultRuleSet]
      cases hm : alookup st.config.rule_sets rsid with
      | none => exact h
      | some rs0 => simp [saveConfig, defaultPresent, hm]
  · intro st
    rw [engineDeleteRuleSet]
    cases h : alookup st.config.rule_sets st.config.default_rule_set with
    | none => rfl
    | some rs => simp
  · intro st rsid h
    rw [engineSetDefaultRuleSet] at h
    cases hm : alookup st.config.rule_sets rsid with
    | none => rw [hm] at h; simp at h
    | some rs => simp [hm]

/-- Witness for C10: the invariant survives a concrete delete of a stored
rule and a concrete failed delete of the default rule set. -/
theorem c10_witness :
    defaultPresent (step stDel10 "t1" (Op.delR "r1")).config ∧
    defaultPresent (step stDel10 "t1" (Op.delRS "default")).config := by
  exact ⟨c10_default_rule_set_invariant.1 stDel10 "t1" (Op.delR "r1")
      (by decide),
    c10_default_rule_set_invariant.1 stDel10 "t1" (Op.delRS "default")
      (by decide)⟩

end RulesEngineMCP
